import Mathlib

/-
Verification of the budget-app store layer (src/src/context/BudgetContext.tsx).

The store state, reducer and the provider's mutation/query functions are
embedded as pure Lean functions.  JavaScript numbers are modelled as
rationals (ℚ); transaction identifiers are the decimal strings produced by
`Date.now().toString()`, so the wall-clock reading at each `addTransaction`
call is passed as an explicit `now : Nat` argument.  The JavaScript object
used by `getExpensesByCategory` is modelled as an association list in key
insertion order, mirroring JS object semantics (`acc[k] = (acc[k] || 0) + v`
updates in place when the key exists and appends otherwise; since the only
falsy rational is 0, `(acc[k] || 0)` is lookup-with-default-0).
-/

namespace BudgetApp

/-- The `'income' | 'expense'` union of `Transaction.type`. -/
inductive TxType where
  | income
  | expense
deriving DecidableEq

/-- `Transaction` record from BudgetContext.tsx. -/
structure Transaction where
  id : String
  amount : ℚ
  type : TxType
  category : String
  date : String
  description : String
deriving DecidableEq

/-- `Budget` record from BudgetContext.tsx. -/
structure Budget where
  category : String
  limit : ℚ
  spent : ℚ
deriving DecidableEq

/-- `Category` record from BudgetContext.tsx. -/
structure Category where
  id : String
  name : String
  icon : String
  color : String
deriving DecidableEq

/-- `BudgetState`: the store snapshot. -/
structure BudgetState where
  transactions : List Transaction
  budgets : List Budget
  categories : List Category
deriving DecidableEq

/-- The nine seeded categories (`defaultCategories`). -/
def defaultCategories : List Category :=
  [ { id := "1", name := "Food & Dining", icon := "🍽️", color := "#F59E0B" },
    { id := "2", name := "Transportation", icon := "🚗", color := "#3B82F6" },
    { id := "3", name := "Shopping", icon := "🛍️", color := "#EF4444" },
    { id := "4", name := "Entertainment", icon := "🎬", color := "#8B5CF6" },
    { id := "5", name := "Bills & Utilities", icon := "⚡", color := "#10B981" },
    { id := "6", name := "Healthcare", icon := "🏥", color := "#F97316" },
    { id := "7", name := "Salary", icon := "💰", color := "#059669" },
    { id := "8", name := "Freelance", icon := "💼", color := "#0891B2" },
    { id := "9", name := "Other", icon := "📦", color := "#6B7280" } ]

/-- `initialState`: empty transactions and budgets, seeded categories. -/
def initialState : BudgetState :=
  { transactions := [], budgets := [], categories := defaultCategories }

/-- `BudgetAction` union. -/
inductive BudgetAction where
  | addTransaction (payload : Transaction)
  | updateTransaction (payload : Transaction)
  | deleteTransaction (payload : String)
  | setBudget (payload : Budget)
  | addCategory (payload : Category)
  | loadData (payload : BudgetState)

/-- `budgetReducer` from BudgetContext.tsx, case for case. -/
def budgetReducer (state : BudgetState) (action : BudgetAction) : BudgetState :=
  match action with
  | .addTransaction p =>
      { state with transactions := state.transactions ++ [p] }
  | .updateTransaction p =>
      { state with transactions :=
          state.transactions.map (fun t => if t.id = p.id then p else t) }
  | .deleteTransaction i =>
      { state with transactions :=
          state.transactions.filter (fun t => decide (t.id ≠ i)) }
  | .setBudget b =>
      { state with budgets :=
          if state.budgets.any (fun x => decide (x.category = b.category)) then
            state.budgets.map (fun x => if x.category = b.category then b else x)
          else
            state.budgets ++ [b] }
  | .addCategory c =>
      { state with categories := state.categories ++ [c] }
  | .loadData s => s

/-- `Omit<Transaction, 'id'>`: the payload handed to `addTransaction`. -/
structure TransactionData where
  amount : ℚ
  type : TxType
  category : String
  date : String
  description : String
deriving DecidableEq

/-- `Omit<Category, 'id'>`: the payload handed to `addCategory`. -/
structure CategoryData where
  name : String
  icon : String
  color : String
deriving DecidableEq

/-- Provider `addTransaction`: assigns `Date.now().toString()` as id
(the clock reading is the explicit `now` argument) and dispatches. -/
def addTransaction (state : BudgetState) (transaction : TransactionData)
    (now : Nat) : BudgetState :=
  budgetReducer state (.addTransaction
    { id := toString now
      amount := transaction.amount
      type := transaction.type
      category := transaction.category
      date := transaction.date
      description := transaction.description })

/-- Provider `updateTransaction`. -/
def updateTransaction (state : BudgetState) (transaction : Transaction) :
    BudgetState :=
  budgetReducer state (.updateTransaction transaction)

/-- Provider `deleteTransaction`. -/
def deleteTransaction (state : BudgetState) (id : String) : BudgetState :=
  budgetReducer state (.deleteTransaction id)

/-- Provider `setBudget`. -/
def setBudget (state : BudgetState) (budget : Budget) : BudgetState :=
  budgetReducer state (.setBudget budget)

/-- Provider `addCategory`: assigns `Date.now().toString()` as id. -/
def addCategory (state : BudgetState) (category : CategoryData)
    (now : Nat) : BudgetState :=
  budgetReducer state (.addCategory
    { id := toString now
      name := category.name
      icon := category.icon
      color := category.color })

/-- `calculateTotalIncome`: sum (via reduce) over income transactions. -/
def calculateTotalIncome (state : BudgetState) : ℚ :=
  (state.transactions.filter (fun t => decide (t.type = TxType.income))).foldl
    (fun sum t => sum + t.amount) 0

/-- `calculateTotalExpenses`: sum (via reduce) over expense transactions. -/
def calculateTotalExpenses (state : BudgetState) : ℚ :=
  (state.transactions.filter (fun t => decide (t.type = TxType.expense))).foldl
    (fun sum t => sum + t.amount) 0

/-- `calculateBalance`. -/
def calculateBalance (state : BudgetState) : ℚ :=
  calculateTotalIncome state - calculateTotalExpenses state

/-- JS object property read with numeric default: `acc[key] || 0` (the only
falsy rational is 0, so the `|| 0` coincides with default-0 lookup). -/
def objGetD : List (String × ℚ) → String → ℚ
  | [], _ => 0
  | p :: rest, key => if p.1 = key then p.2 else objGetD rest key

/-- JS object property write `acc[key] = value`: updates the entry in place
when the key exists (JS object keys are unique), appends a new entry at the
end otherwise, preserving property insertion order. -/
def objSet : List (String × ℚ) → String → ℚ → List (String × ℚ)
  | [], key, value => [(key, value)]
  | p :: rest, key, value =>
      if p.1 = key then (key, value) :: rest else p :: objSet rest key value

/-- `getExpensesByCategory`: reduce over expense transactions building the
category → summed-amount object. -/
def getExpensesByCategory (state : BudgetState) : List (String × ℚ) :=
  (state.transactions.filter (fun t => decide (t.type = TxType.expense))).foldl
    (fun acc t => objSet acc t.category (objGetD acc t.category + t.amount)) []

/-- `getBudgetProgress`: 0 when `find` misses; else
`Math.min((spent / budget.limit) * 100, 100)` with `spent` recomputed from
the transaction list. -/
def getBudgetProgress (state : BudgetState) (category : String) : ℚ :=
  match state.budgets.find? (fun b => decide (b.category = category)) with
  | none => 0
  | some budget =>
      let spent :=
        (state.transactions.filter
          (fun t => decide (t.type = TxType.expense ∧ t.category = category))).foldl
          (fun sum t => sum + t.amount) 0
      min ((spent / budget.limit) * 100) 100

/-- The load effect of `BudgetProvider`: `JSON.parse` is abstracted as a
`parse` function whose `none` result models a thrown parse error, which the
`catch` turns into a `console.error` (the `Bool` component records whether
that diagnostic was logged).  On success the parsed snapshot is dispatched
wholesale via `LOAD_DATA`. -/
def loadSavedData (savedData : Option String)
    (parse : String → Option BudgetState) : BudgetState × Bool :=
  match savedData with
  | none => (initialState, false)
  | some s =>
      match parse s with
      | some parsedData => (budgetReducer initialState (.loadData parsedData), false)
      | none => (initialState, true)

/-- A call to one of the provider's five mutation functions, with the
wall-clock reading attached where the source reads `Date.now()`. -/
inductive Mutation where
  | add (data : TransactionData) (now : Nat)
  | update (t : Transaction)
  | del (id : String)
  | setB (b : Budget)
  | addCat (c : CategoryData) (now : Nat)

/-- Apply one mutation call to a snapshot. -/
def applyMutation (state : BudgetState) : Mutation → BudgetState
  | .add d now => addTransaction state d now
  | .update t => updateTransaction state t
  | .del i => deleteTransaction state i
  | .setB b => setBudget state b
  | .addCat c now => addCategory state c now

/-- Apply a sequence of mutation calls in order. -/
def applyMutations (state : BudgetState) (ms : List Mutation) : BudgetState :=
  ms.foldl applyMutation state

/-- The id strings generated by the `addTransaction` calls of a sequence. -/
def addIdStrings (ms : List Mutation) : List String :=
  ms.filterMap (fun m =>
    match m with
    | .add _ now => some (toString now)
    | _ => none)

/-- Sum of the amounts of the expense transactions of a given category,
recomputed from the transaction list (the spec's `spentForCategory`). -/
def spentForCategory (state : BudgetState) (category : String) : ℚ :=
  ((state.transactions.filter
    (fun t => decide (t.type = TxType.expense ∧ t.category = category))).map
    Transaction.amount).sum

/-- Left fold with `(sum, t) => sum + t.amount` is the sum of the amounts. -/
theorem foldl_add_amount (l : List Transaction) (a : ℚ) :
    l.foldl (fun sum t => sum + t.amount) a = a + (l.map Transaction.amount).sum := by
  induction l generalizing a with
  | nil => simp
  | cons x xs ih => simp [List.foldl_cons, ih, add_assoc]

/-- C4: for every snapshot reachable by any sequence of mutation calls,
`calculateBalance` equals `calculateTotalIncome` minus
`calculateTotalExpenses`. -/
theorem calculateBalance_eq_income_sub_expenses (ms : List Mutation) :
    calculateBalance (applyMutations initialState ms) =
      calculateTotalIncome (applyMutations initialState ms) -
        calculateTotalExpenses (applyMutations initialState ms) := rfl

/-- C5: `addTransaction` appends exactly one transaction at the end of the
list, whose amount, type, category, date and description equal the payload
fields, and whose id is the newly assigned time-based string. -/
theorem addTransaction_appends (s : BudgetState) (d : TransactionData)
    (now : Nat) :
    (addTransaction s d now).transactions.length = s.transactions.length + 1 ∧
    (addTransaction s d now).transactions =
      s.transactions ++
        [{ id := toString now, amount := d.amount, type := d.type,
           category := d.category, date := d.date,
           description := d.description }] := by
  constructor
  · simp [addTransaction, budgetReducer]
  · rfl

/-- C9: every mutation leaves the snapshot components it does not target
unchanged: the transaction mutations preserve budgets and categories,
`setBudget` preserves transactions and categories, and `addCategory`
preserves transactions and budgets. -/
theorem mutation_frame (s : BudgetState) (d : TransactionData) (now : Nat)
    (p : Transaction) (i : String) (b : Budget) (c : CategoryData)
    (cnow : Nat) :
    (addTransaction s d now).budgets = s.budgets ∧
    (addTransaction s d now).categories = s.categories ∧
    (updateTransaction s p).budgets = s.budgets ∧
    (updateTransaction s p).categories = s.categories ∧
    (deleteTransaction s i).budgets = s.budgets ∧
    (deleteTransaction s i).categories = s.categories ∧
    (setBudget s b).transactions = s.transactions ∧
    (setBudget s b).categories = s.categories ∧
    (addCategory s c cnow).transactions = s.transactions ∧
    (addCategory s c cnow).budgets = s.budgets :=
  ⟨rfl, rfl, rfl, rfl, rfl, rfl, rfl, rfl, rfl, rfl⟩

/-- C10: `updateTransaction` replaces every transaction whose id matches the
payload id (after the call, every matching entry is the payload), and
`deleteTransaction` removes every transaction with the given id; in both
cases the non-matching transactions are kept, in their original relative
order. -/
theorem updateDelete_allMatches (s : BudgetState) (p : Transaction)
    (i : String) :
    ((updateTransaction s p).transactions =
        s.transactions.map (fun t => if t.id = p.id then p else t)) ∧
    (∀ t ∈ (updateTransaction s p).transactions, t.id = p.id → t = p) ∧
    ((updateTransaction s p).transactions.filter
        (fun t => decide (t.id ≠ p.id)) =
      s.transactions.filter (fun t => decide (t.id ≠ p.id))) ∧
    ((deleteTransaction s i).transactions =
        s.transactions.filter (fun t => decide (t.id ≠ i))) ∧
    (∀ t ∈ (deleteTransaction s i).transactions, t.id ≠ i) := by
  refine ⟨rfl, ?_, ?_, rfl, ?_⟩
  · intro t ht hid
    simp only [updateTransaction, budgetReducer, List.mem_map] at ht
    obtain ⟨u, _, hu⟩ := ht
    by_cases h : u.id = p.id
    · simpa [h] using hu.symm
    · rw [← hu] at hid
      simp [h] at hid
  · show (s.transactions.map (fun t => if t.id = p.id then p else t)).filter _ = _
    induction s.transactions with
    | nil => rfl
    | cons x xs ih =>
        by_cases h : x.id = p.id
        · simpa [h] using ih
        · simpa [h] using ih
  · intro t ht
    simp only [deleteTransaction, budgetReducer, List.mem_filter,
      decide_eq_true_eq] at ht
    exact ht.2

/-- C10 witness: the theorem applied at a concrete snapshot. -/
theorem updateDelete_allMatches_witness :
    ∀ t ∈ (deleteTransaction
        { transactions :=
            [{ id := "1", amount := 5, type := TxType.expense,
               category := "A", date := "2024-01-01", description := "x" },
             { id := "2", amount := 7, type := TxType.income,
               category := "B", date := "2024-01-02", description := "y" }],
          budgets := [], categories := [] } "1").transactions, t.id ≠ "1" :=
  (updateDelete_allMatches
    { transactions :=
        [{ id := "1", amount := 5, type := TxType.expense,
           category := "A", date := "2024-01-01", description := "x" },
         { id := "2", amount := 7, type := TxType.income,
           category := "B", date := "2024-01-02", description := "y" }],
      budgets := [], categories := [] }
    { id := "9", amount := 1, type := TxType.income, category := "C",
      date := "2024-01-03", description := "z" } "1").2.2.2.2

/-- C6: when no transaction carries the referenced identifier, both
`updateTransaction` and `deleteTransaction` leave the snapshot unchanged
(and, being total functions, surface no error). -/
theorem missing_id_noop (s : BudgetState) (p : Transaction) (i : String)
    (hu : ∀ t ∈ s.transactions, t.id ≠ p.id)
    (hd : ∀ t ∈ s.transactions, t.id ≠ i) :
    updateTransaction s p = s ∧ deleteTransaction s i = s := by
  constructor
  · show { s with transactions :=
        s.transactions.map (fun t => if t.id = p.id then p else t) } = s
    have h : s.transactions.map (fun t => if t.id = p.id then p else t) =
        s.transactions := by
      have := List.map_congr_left (l := s.transactions)
        (f := fun t => if t.id = p.id then p else t) (g := id)
        (fun t ht => by simp [hu t ht])
      simpa using this
    rw [h]
  · show { s with transactions :=
        s.transactions.filter (fun t => decide (t.id ≠ i)) } = s
    have h : s.transactions.filter (fun t => decide (t.id ≠ i)) =
        s.transactions :=
      List.filter_eq_self.mpr (fun t ht => by simpa using hd t ht)
    rw [h]

/-- C6 witness: a concrete snapshot with one transaction, updated and
deleted with identifiers that are absent, stays unchanged. -/
theorem missing_id_noop_witness :
    updateTransaction
        { transactions :=
            [{ id := "1", amount := 5, type := TxType.expense,
               category := "A", date := "2024-01-01", description := "x" }],
          budgets := [], categories := [] }
        { id := "2", amount := 3, type := TxType.income, category := "B",
          date := "2024-01-02", description := "y" } =
      { transactions :=
          [{ id := "1", amount := 5, type := TxType.expense,
             category := "A", date := "2024-01-01", description := "x" }],
        budgets := [], categories := [] } ∧
    deleteTransaction
        { transactions :=
            [{ id := "1", amount := 5, type := TxType.expense,
               category := "A", date := "2024-01-01", description := "x" }],
          budgets := [], categories := [] } "3" =
      { transactions :=
          [{ id := "1", amount := 5, type := TxType.expense,
             category := "A", date := "2024-01-01", description := "x" }],
        budgets := [], categories := [] } :=
  missing_id_noop _ _ "3" (by decide) (by decide)

/-- C8: when a persisted value is present but fails to parse, loading keeps
the seed snapshot (nine seed categories, empty transactions and budgets)
and logs a diagnostic; when it parses, the parsed snapshot fully replaces
the seeded default, categories included. -/
theorem loadSavedData_correct (saved : String)
    (parse : String → Option BudgetState) :
    (parse saved = none →
      loadSavedData (some saved) parse = (initialState, true) ∧
      initialState.transactions = [] ∧
      initialState.budgets = [] ∧
      initialState.categories.length = 9) ∧
    (∀ st, parse saved = some st →
      loadSavedData (some saved) parse = (st, false)) := by
  constructor
  · intro h
    refine ⟨?_, rfl, rfl, rfl⟩
    simp [loadSavedData, h]
  · intro st h
    simp [loadSavedData, h, budgetReducer]

/-- C8 witness: a failing parse keeps the seed snapshot and logs; a
succeeding parse replaces it wholesale. -/
theorem loadSavedData_correct_witness :
    loadSavedData (some "bad") (fun _ => none) = (initialState, true) ∧
    loadSavedData (some "ok")
        (fun _ => some { transactions := [], budgets := [], categories := [] }) =
      ({ transactions := [], budgets := [], categories := [] }, false) :=
  ⟨((loadSavedData_correct "bad" (fun _ => none)).1 rfl).1,
   (loadSavedData_correct "ok"
      (fun _ => some { transactions := [], budgets := [], categories := [] })).2
      _ rfl⟩

/-- `find?` over budgets with the `spent` field rewritten finds the
correspondingly rewritten entry. -/
theorem find?_map_spent (l : List Budget) (c : String) (q : ℚ) :
    (l.map (fun b => { b with spent := q })).find?
        (fun x => decide (x.category = c)) =
      (l.find? (fun x => decide (x.category = c))).map
        (fun b => { b with spent := q }) := by
  rw [List.find?_map]
  rfl

/-- C1 (amended): `getBudgetProgress` is 0 when no budget entry exists for
the category; otherwise it is `min 100 (100 * spentForCategory / limit)`
where the spending is recomputed from the transaction list; the stored
`spent` field of the budgets is never consulted; and the result lies in
[0, 100] whenever every expense amount is nonnegative and every budget
limit is positive. -/
theorem getBudgetProgress_correct (s : BudgetState) (c : String) :
    ((∀ b ∈ s.budgets, b.category ≠ c) → getBudgetProgress s c = 0) ∧
    (∀ b, s.budgets.find? (fun x => decide (x.category = c)) = some b →
      getBudgetProgress s c = min 100 (100 * spentForCategory s c / b.limit)) ∧
    (∀ q : ℚ,
      getBudgetProgress
          { s with budgets := s.budgets.map (fun b => { b with spent := q }) } c =
        getBudgetProgress s c) ∧
    ((∀ t ∈ s.transactions, t.type = TxType.expense → 0 ≤ t.amount) →
      (∀ b ∈ s.budgets, 0 < b.limit) →
      0 ≤ getBudgetProgress s c ∧ getBudgetProgress s c ≤ 100) := by
  have hspent : ∀ h1 : ∀ t ∈ s.transactions, t.type = TxType.expense → 0 ≤ t.amount,
      0 ≤ spentForCategory s c := by
    intro h1
    refine List.sum_nonneg ?_
    intro x hx
    simp only [List.mem_map, List.mem_filter, decide_eq_true_eq] at hx
    obtain ⟨t, ⟨ht, hty, _⟩, rfl⟩ := hx
    exact h1 t ht hty
  refine ⟨?_, ?_, ?_, ?_⟩
  · intro h
    have hnone : s.budgets.find? (fun x => decide (x.category = c)) = none :=
      List.find?_eq_none.mpr (fun x hx => by simp [h x hx])
    simp [getBudgetProgress, hnone]
  · intro b hb
    simp only [getBudgetProgress, hb]
    rw [foldl_add_amount, zero_add, min_comm]
    congr 1
    show (spentForCategory s c / b.limit) * 100 = 100 * spentForCategory s c / b.limit
    ring
  · intro q
    show getBudgetProgress _ c = getBudgetProgress s c
    unfold getBudgetProgress
    rw [show ({ s with budgets := s.budgets.map (fun b => { b with spent := q }) } :
          BudgetState).budgets = s.budgets.map (fun b => { b with spent := q }) from rfl,
        find?_map_spent]
    cases hf : s.budgets.find? (fun x => decide (x.category = c)) with
    | none => rfl
    | some b => rfl
  · intro h1 h2
    cases hf : s.budgets.find? (fun x => decide (x.category = c)) with
    | none =>
        simp [getBudgetProgress, hf]
    | some b =>
        have hbmem : b ∈ s.budgets := List.mem_of_find?_eq_some hf
        have hlim : 0 < b.limit := h2 b hbmem
        have hsp : 0 ≤ spentForCategory s c := hspent h1
        have heq : getBudgetProgress s c =
            min ((spentForCategory s c / b.limit) * 100) 100 := by
          simp only [getBudgetProgress, hf]
          rw [foldl_add_amount, zero_add]
          rfl
        rw [heq]
        constructor
        · exact le_min (by positivity) (by norm_num)
        · exact min_le_right _ _

/-- A snapshot with a negative expense amount, used to refute the original
range clause of C1. -/
def negAmountState : BudgetState :=
  { transactions :=
      [{ id := "t1", amount := -50, type := TxType.expense, category := "A",
         date := "2024-01-01", description := "x" }],
    budgets := [{ category := "A", limit := 100, spent := 0 }],
    categories := [] }

/-- C1 counterexample: with a budget of limit 100 on category "A" and a
single expense of amount −50 in "A", `getBudgetProgress` returns −50, which
is outside [0, 100]; so the clause "the result lies in [0, 100] for every
amount configuration" fails as stated. -/
theorem getBudgetProgress_range_cx :
    ¬ (0 ≤ getBudgetProgress negAmountState "A" ∧
        getBudgetProgress negAmountState "A" ≤ 100) := by
  norm_num [getBudgetProgress, negAmountState, List.filter, List.find?, min_def]

/-- C1 witness: the spec §8 example state (two Food & Dining expenses of
500 and 600 against a limit of 1000) satisfies the amended hypotheses and
gets a progress inside [0, 100]. -/
theorem getBudgetProgress_correct_witness :
    0 ≤ getBudgetProgress
        { transactions :=
            [{ id := "1", amount := 500, type := TxType.expense,
               category := "Food & Dining", date := "2024-01-10",
               description := "Lunch" },
             { id := "2", amount := 600, type := TxType.expense,
               category := "Food & Dining", date := "2024-01-11",
               description := "Dinner" }],
          budgets := [{ category := "Food & Dining", limit := 1000, spent := 500 }],
          categories := defaultCategories } "Food & Dining" ∧
    getBudgetProgress
        { transactions :=
            [{ id := "1", amount := 500, type := TxType.expense,
               category := "Food & Dining", date := "2024-01-10",
               description := "Lunch" },
             { id := "2", amount := 600, type := TxType.expense,
               category := "Food & Dining", date := "2024-01-11",
               description := "Dinner" }],
          budgets := [{ category := "Food & Dining", limit := 1000, spent := 500 }],
          categories := defaultCategories } "Food & Dining" ≤ 100 :=
  (getBudgetProgress_correct _ "Food & Dining").2.2.2
    (by decide) (by norm_num)

/-- When no budget of the category is present, `setBudget` appends. -/
theorem setBudget_budgets_absent (s : BudgetState) (b : Budget)
    (h : ∀ x ∈ s.budgets, x.category ≠ b.category) :
    (setBudget s b).budgets = s.budgets ++ [b] := by
  have hany : s.budgets.any (fun x => decide (x.category = b.category)) = false := by
    simp only [List.any_eq_false, decide_eq_true_eq]
    exact h
  simp [setBudget, budgetReducer, hany]

/-- When a budget of the category is present, `setBudget` maps the
replacement over the list. -/
theorem setBudget_budgets_present (s : BudgetState) (b : Budget)
    (h : ∃ x ∈ s.budgets, x.category = b.category) :
    (setBudget s b).budgets =
      s.budgets.map (fun x => if x.category = b.category then b else x) := by
  have hany : s.budgets.any (fun x => decide (x.category = b.category)) = true := by
    simp only [List.any_eq_true, decide_eq_true_eq]
    exact h
  simp [setBudget, budgetReducer, hany]

/-- Replacing the budget of one category does not change the category list
of the budgets. -/
theorem cats_map_replace (l : List Budget) (b : Budget) :
    (l.map (fun x => if x.category = b.category then b else x)).map
        Budget.category = l.map Budget.category := by
  rw [List.map_map]
  refine List.map_congr_left ?_
  intro x _
  by_cases h : x.category = b.category
  · simp [h]
  · simp [h]

/-- With pairwise-distinct budget categories, replacement followed by the
matching filter yields exactly the new budget. -/
theorem filter_map_replace_budget (l : List Budget) (b : Budget)
    (hnd : (l.map Budget.category).Nodup)
    (hp : ∃ x ∈ l, x.category = b.category) :
    (l.map (fun x => if x.category = b.category then b else x)).filter
      (fun x => decide (x.category = b.category)) = [b] := by
  induction l with
  | nil => simp at hp
  | cons y ys ih =>
      simp only [List.map_cons, List.nodup_cons] at hnd
      by_cases h : y.category = b.category
      · have hys : ys.map (fun x => if x.category = b.category then b else x) = ys := by
          have hc := List.map_congr_left (l := ys)
            (f := fun x => if x.category = b.category then b else x) (g := id)
            (fun x hx => by
              have hne : x.category ≠ b.category := fun hc =>
                hnd.1 (h ▸ hc ▸ List.mem_map_of_mem Budget.category hx)
              simp [hne])
          simpa using hc
        have hnone : ys.filter (fun x => decide (x.category = b.category)) = [] := by
          refine List.filter_eq_nil_iff.mpr ?_
          intro x hx
          simp only [decide_eq_true_eq]
          intro hc
          exact hnd.1 (h ▸ hc ▸ List.mem_map_of_mem Budget.category hx)
        simp [h, List.filter_cons, hys, hnone]
      · have hp2 : ∃ x ∈ ys, x.category = b.category := by
          obtain ⟨x, hx, hxc⟩ := hp
          rcases List.mem_cons.mp hx with rfl | hx2
          · exact absurd hxc h
          · exact ⟨x, hx2, hxc⟩
        simp only [List.map_cons, if_neg h, List.filter_cons, decide_eq_true_eq]
        exact ih hnd.2 hp2

/-- Replacing the budgets of one category leaves the non-matching filter
of a budget list unchanged. -/
theorem filter_not_map_replace (l : List Budget) (b : Budget) :
    (l.map (fun x => if x.category = b.category then b else x)).filter
        (fun x => decide (¬ x.category = b.category)) =
      l.filter (fun x => decide (¬ x.category = b.category)) := by
  induction l with
  | nil => rfl
  | cons y ys ih =>
      by_cases h : y.category = b.category
      · simpa [h] using ih
      · simpa [h] using ih

/-- `setBudget` never touches budgets of other categories: the
non-matching filter of the budgets is unchanged. -/
theorem filter_not_setBudget (s : BudgetState) (b : Budget) :
    (setBudget s b).budgets.filter (fun x => decide (¬ x.category = b.category)) =
      s.budgets.filter (fun x => decide (¬ x.category = b.category)) := by
  by_cases hp : ∃ x ∈ s.budgets, x.category = b.category
  · rw [setBudget_budgets_present s b hp]
    exact filter_not_map_replace s.budgets b
  · push_neg at hp
    rw [setBudget_budgets_absent s b hp]
    simp [List.filter_append]

/-- `setBudget` keeps the budget categories pairwise distinct. -/
theorem nodup_cats_setBudget (s : BudgetState) (b : Budget)
    (hnd : (s.budgets.map Budget.category).Nodup) :
    ((setBudget s b).budgets.map Budget.category).Nodup := by
  by_cases hp : ∃ x ∈ s.budgets, x.category = b.category
  · rw [setBudget_budgets_present s b hp, cats_map_replace]
    exact hnd
  · push_neg at hp
    rw [setBudget_budgets_absent s b hp]
    simp only [List.map_append, List.map_cons, List.map_nil]
    rw [List.nodup_append]
    refine ⟨hnd, List.nodup_singleton _, ?_⟩
    intro a ha hb
    simp only [List.mem_singleton] at hb
    subst hb
    obtain ⟨x, hx, hxc⟩ := List.mem_map.mp ha
    exact hp x hx hxc

/-- With pairwise-distinct budget categories, one `setBudget` leaves
exactly one budget of that category, namely the one just set. -/
theorem filter_setBudget_self (s : BudgetState) (b : Budget)
    (hnd : (s.budgets.map Budget.category).Nodup) :
    (setBudget s b).budgets.filter (fun x => decide (x.category = b.category)) =
      [b] := by
  by_cases hp : ∃ x ∈ s.budgets, x.category = b.category
  · rw [setBudget_budgets_present s b hp]
    exact filter_map_replace_budget s.budgets b hnd hp
  · push_neg at hp
    rw [setBudget_budgets_absent s b hp]
    have hnil : s.budgets.filter (fun x => decide (x.category = b.category)) = [] := by
      refine List.filter_eq_nil_iff.mpr ?_
      intro x hx
      simpa using hp x hx
    simp [List.filter_append, hnil]

/-- C3: `setBudget` is an upsert keyed on category: on a snapshot with at
most one budget per category, it appends when the category is absent and
replaces in place when present, and two consecutive calls with the same
category leave exactly one budget of that category, carrying the second
call's data, with all other budgets untouched. -/
theorem setBudget_upsert (s : BudgetState) (b1 b2 : Budget)
    (hnd : (s.budgets.map Budget.category).Nodup)
    (hcat : b1.category = b2.category) :
    ((∀ x ∈ s.budgets, x.category ≠ b1.category) →
      (setBudget s b1).budgets = s.budgets ++ [b1]) ∧
    ((∃ x ∈ s.budgets, x.category = b1.category) →
      (setBudget s b1).budgets =
        s.budgets.map (fun x => if x.category = b1.category then b1 else x)) ∧
    ((setBudget (setBudget s b1) b2).budgets.filter
        (fun x => decide (x.category = b2.category)) = [b2]) ∧
    ((setBudget (setBudget s b1) b2).budgets.filter
        (fun x => decide (¬ x.category = b2.category)) =
      s.budgets.filter (fun x => decide (¬ x.category = b2.category))) := by
  refine ⟨setBudget_budgets_absent s b1, setBudget_budgets_present s b1, ?_, ?_⟩
  · exact filter_setBudget_self (setBudget s b1) b2 (nodup_cats_setBudget s b1 hnd)
  · rw [filter_not_setBudget (setBudget s b1) b2, ← hcat,
      filter_not_setBudget s b1]

/-- C3 witness: setting a Food & Dining budget twice on the seeded initial
snapshot leaves exactly the second budget for that category and nothing
else. -/
theorem setBudget_upsert_witness :
    (setBudget (setBudget initialState
          { category := "Food & Dining", limit := 1000, spent := 500 })
        { category := "Food & Dining", limit := 2000, spent := 500 }).budgets.filter
      (fun x => decide (x.category = "Food & Dining")) =
      [{ category := "Food & Dining", limit := 2000, spent := 500 }] :=
  (setBudget_upsert initialState
    { category := "Food & Dining", limit := 1000, spent := 500 }
    { category := "Food & Dining", limit := 2000, spent := 500 }
    (by decide) rfl).2.2.1

/-- Replacing by id preserves the id list of the transactions. -/
theorem ids_map_replace (l : List Transaction) (p : Transaction) :
    ((l.map (fun t => if t.id = p.id then p else t)).map Transaction.id) =
      l.map Transaction.id := by
  rw [List.map_map]
  refine List.map_congr_left ?_
  intro t _
  by_cases h : t.id = p.id
  · simp [h]
  · simp [h]

/-- Invariant propagation for C7: if the ids already present are pairwise
distinct and disjoint from the id strings the remaining `addTransaction`
calls will generate, and those are pairwise distinct, then the final id
list is pairwise distinct. -/
theorem nodup_ids_aux (ms : List Mutation) (s : BudgetState)
    (h1 : (s.transactions.map Transaction.id).Nodup)
    (h2 : (addIdStrings ms).Nodup)
    (h3 : ∀ t ∈ s.transactions, t.id ∉ addIdStrings ms) :
    ((applyMutations s ms).transactions.map Transaction.id).Nodup := by
  induction ms generalizing s with
  | nil => exact h1
  | cons m ms ih =>
      rw [show applyMutations s (m :: ms) =
        applyMutations (applyMutation s m) ms from rfl]
      cases m with
      | add d now =>
          have h2' : (addIdStrings (Mutation.add d now :: ms)).Nodup := h2
          rw [show addIdStrings (Mutation.add d now :: ms) =
            toString now :: addIdStrings ms from rfl, List.nodup_cons] at h2'
          refine ih (applyMutation s (.add d now)) ?_ h2'.2 ?_
          · show ((s.transactions ++ [_]).map Transaction.id).Nodup
            rw [List.map_append, List.nodup_append]
            refine ⟨h1, List.nodup_singleton _, ?_⟩
            intro a ha hb
            simp only [List.map_cons, List.map_nil, List.mem_singleton] at hb
            subst hb
            obtain ⟨t, ht, hid⟩ := List.mem_map.mp ha
            exact (h3 t ht) (hid ▸ List.mem_cons_self _ _)
          · intro t ht
            rcases List.mem_append.mp ht with hold | hnew
            · exact fun hc => (h3 t hold) (List.mem_cons_of_mem _ hc)
            · simp only [List.mem_singleton] at hnew
              subst hnew
              exact h2'.1
      | update p =>
          refine ih (applyMutation s (.update p)) ?_ h2 ?_
          · show ((s.transactions.map fun t => if t.id = p.id then p else t).map
              Transaction.id).Nodup
            rw [ids_map_replace]
            exact h1
          · intro t ht
            obtain ⟨u, hu, huid⟩ := List.mem_map.mp ht
            have : t.id = u.id := by
              subst huid
              by_cases h : u.id = p.id
              · simp [h]
              · simp [h]
            rw [this]
            exact h3 u hu
      | del i =>
          refine ih (applyMutation s (.del i)) ?_ h2 ?_
          · show (((s.transactions.filter _).map Transaction.id)).Nodup
            exact ((List.filter_sublist s.transactions).map Transaction.id).nodup h1
          · intro t ht
            exact h3 t (List.mem_of_mem_filter ht)
      | setB b => exact ih (applyMutation s (.setB b)) h1 h2 h3
      | addCat c now => exact ih (applyMutation s (.addCat c now)) h1 h2 h3

/-- C7 (amended): starting from the seeded initial snapshot, after any
sequence of mutation calls in which no two `addTransaction` calls observe
the same clock reading (so the generated time-based id strings are pairwise
distinct), no two transactions in the list share an identifier. -/
theorem transaction_ids_nodup (ms : List Mutation)
    (h : (addIdStrings ms).Nodup) :
    ((applyMutations initialState ms).transactions.map Transaction.id).Nodup :=
  nodup_ids_aux ms initialState List.nodup_nil h (fun t ht => absurd ht (by simp [initialState]))

/-- A fixed transaction payload used in the C7 counterexample and witness. -/
def someData : TransactionData :=
  { amount := 5, type := TxType.expense, category := "A",
    date := "2024-01-01", description := "x" }

/-- C7 counterexample: two `addTransaction` calls that observe the same
`Date.now()` reading (here 5) produce two transactions with the identical
id "5", so identifier uniqueness fails as an unconditional claim. -/
theorem transaction_ids_nodup_cx :
    ¬ ((applyMutations initialState
          [Mutation.add someData 5, Mutation.add someData 5]).transactions.map
        Transaction.id).Nodup := by decide

/-- C7 witness: two adds at distinct clock readings satisfy the hypothesis
and yield pairwise-distinct ids. -/
theorem transaction_ids_nodup_witness :
    (addIdStrings [Mutation.add someData 1, Mutation.del "9",
        Mutation.add someData 2]).Nodup ∧
    ((applyMutations initialState
          [Mutation.add someData 1, Mutation.del "9",
            Mutation.add someData 2]).transactions.map Transaction.id).Nodup :=
  ⟨by decide, transaction_ids_nodup _ (by decide)⟩

/-- Sum of the amounts of the entries of a transaction list that carry a
given category. -/
def expAmts (l : List Transaction) (c : String) : ℚ :=
  ((l.filter (fun t => decide (t.category = c))).map Transaction.amount).sum

/-- The accumulation loop of `getExpensesByCategory`. -/
def accumulate (l : List Transaction) (acc : List (String × ℚ)) :
    List (String × ℚ) :=
  l.foldl (fun acc t => objSet acc t.category (objGetD acc t.category + t.amount)) acc

/-- `getExpensesByCategory` is `accumulate` over the expense transactions. -/
theorem getExpensesByCategory_eq_accumulate (s : BudgetState) :
    getExpensesByCategory s =
      accumulate (s.transactions.filter (fun t => decide (t.type = TxType.expense))) [] :=
  rfl

/-- Keys after a JS property write: unchanged when the key was present,
the key appended when absent. -/
theorem keys_objSet (acc : List (String × ℚ)) (k : String) (v : ℚ) :
    (objSet acc k v).map Prod.fst =
      if k ∈ acc.map Prod.fst then acc.map Prod.fst
      else acc.map Prod.fst ++ [k] := by
  induction acc with
  | nil => simp [objSet]
  | cons q qs ih =>
      by_cases h : q.1 = k
      · simp [objSet, h]
      · by_cases h2 : k ∈ qs.map Prod.fst
        · simp [objSet, h, Ne.symm h, h2, ih]
        · simp [objSet, h, Ne.symm h, h2, ih]

/-- A JS property write keeps object keys pairwise distinct. -/
theorem nodup_keys_objSet (acc : List (String × ℚ)) (k : String) (v : ℚ)
    (hnd : (acc.map Prod.fst).Nodup) :
    ((objSet acc k v).map Prod.fst).Nodup := by
  rw [keys_objSet]
  by_cases h : k ∈ acc.map Prod.fst
  · simpa [h] using hnd
  · rw [if_neg h, List.nodup_append]
    exact ⟨hnd, List.nodup_singleton _, by
      intro a ha hb
      simp only [List.mem_singleton] at hb
      exact h (hb ▸ ha)⟩

/-- Reading back after a JS property write. -/
theorem objGetD_objSet (acc : List (String × ℚ)) (k : String) (v : ℚ)
    (c : String) :
    objGetD (objSet acc k v) c = if c = k then v else objGetD acc c := by
  induction acc with
  | nil =>
      by_cases h : c = k
      · simp [objSet, objGetD, h]
      · simp [objSet, objGetD, h, Ne.symm h]
  | cons q qs ih =>
      by_cases h : q.1 = k
      · by_cases hc : c = k
        · subst hc
          simp [objSet, objGetD, h]
        · have hqc : ¬ (q.1 = c) := by rw [h]; exact Ne.symm hc
          simp [objSet, objGetD, h, hc, Ne.symm hc, hqc]
      · by_cases hc : c = q.1
        · subst hc
          simp [objSet, objGetD, h]
        · simp [objSet, objGetD, h, hc, Ne.symm hc, ih]

/-- Value sum after a JS property write: the old value at the key is
replaced by the new one. -/
theorem snd_sum_objSet (acc : List (String × ℚ)) (k : String) (v : ℚ) :
    ((objSet acc k v).map Prod.snd).sum =
      ((acc.map Prod.snd).sum - objGetD acc k) + v := by
  induction acc with
  | nil => simp [objSet, objGetD]
  | cons q qs ih =>
      by_cases h : q.1 = k
      · simp only [objSet, if_pos h, List.map_cons, List.sum_cons, objGetD]
        ring
      · simp only [objSet, if_neg h, List.map_cons, List.sum_cons, objGetD, ih]
        ring

/-- Key membership after a JS property write. -/
theorem mem_keys_objSet (acc : List (String × ℚ)) (k : String) (v : ℚ)
    (c : String) :
    c ∈ (objSet acc k v).map Prod.fst ↔ c ∈ acc.map Prod.fst ∨ c = k := by
  rw [keys_objSet]
  by_cases h : k ∈ acc.map Prod.fst
  · rw [if_pos h]
    constructor
    · exact Or.inl
    · rintro (hc | rfl)
      · exact hc
      · exact h
  · rw [if_neg h]
    simp [List.mem_append]

/-- With pairwise-distinct keys, each entry of a JS object holds the value
that the property read returns. -/
theorem objGetD_of_mem (m : List (String × ℚ))
    (hnd : (m.map Prod.fst).Nodup) (p : String × ℚ) (hp : p ∈ m) :
    objGetD m p.1 = p.2 := by
  induction m with
  | nil => simp at hp
  | cons q qs ih =>
      simp only [List.map_cons, List.nodup_cons] at hnd
      rcases List.mem_cons.mp hp with rfl | hp2
      · simp [objGetD]
      · have hne : q.1 ≠ p.1 := fun hc =>
          hnd.1 (hc ▸ List.mem_map_of_mem Prod.fst hp2)
        simp only [objGetD, if_neg hne]
        exact ih hnd.2 hp2

/-- Splitting `expAmts` at a cons cell. -/
theorem expAmts_cons (t : Transaction) (ts : List Transaction) (c : String) :
    expAmts (t :: ts) c =
      (if t.category = c then t.amount else 0) + expAmts ts c := by
  by_cases h : t.category = c
  · simp [expAmts, List.filter_cons, h]
  · simp [expAmts, List.filter_cons, h]

/-- Invariants of the `getExpensesByCategory` accumulation loop: keys stay
pairwise distinct, the value read at each key grows by that category's
amounts, key membership is key presence before or a category occurring in
the processed list, and the value sum grows by the total of the amounts. -/
theorem accumulate_master (l : List Transaction) (acc : List (String × ℚ))
    (hnd : (acc.map Prod.fst).Nodup) :
    ((accumulate l acc).map Prod.fst).Nodup ∧
    (∀ c, objGetD (accumulate l acc) c = objGetD acc c + expAmts l c) ∧
    (∀ c, c ∈ (accumulate l acc).map Prod.fst ↔
      c ∈ acc.map Prod.fst ∨ ∃ t ∈ l, t.category = c) ∧
    ((accumulate l acc).map Prod.snd).sum =
      (acc.map Prod.snd).sum + (l.map Transaction.amount).sum := by
  induction l generalizing acc with
  | nil => simp [accumulate, expAmts, hnd]
  | cons t ts ih =>
      have hstep : accumulate (t :: ts) acc =
          accumulate ts (objSet acc t.category (objGetD acc t.category + t.amount)) :=
        rfl
      have hnd2 : ((objSet acc t.category
          (objGetD acc t.category + t.amount)).map Prod.fst).Nodup :=
        nodup_keys_objSet acc _ _ hnd
      obtain ⟨iA, iB, iC, iD⟩ := ih _ hnd2
      rw [hstep]
      refine ⟨iA, ?_, ?_, ?_⟩
      · intro c
        rw [iB c, objGetD_objSet, expAmts_cons]
        by_cases hc : c = t.category
        · subst hc
          rw [if_pos rfl, if_pos rfl]
          ring
        · rw [if_neg hc, if_neg (fun hh => hc hh.symm)]
          ring
      · intro c
        rw [iC c, mem_keys_objSet]
        constructor
        · rintro ((hmem | hk) | ⟨u, hu, huc⟩)
          · exact Or.inl hmem
          · exact Or.inr ⟨t, List.mem_cons_self t ts, hk.symm⟩
          · exact Or.inr ⟨u, List.mem_cons_of_mem t hu, huc⟩
        · rintro (hmem | ⟨u, hu, huc⟩)
          · exact Or.inl (Or.inl hmem)
          · rcases List.mem_cons.mp hu with rfl | hu2
            · exact Or.inl (Or.inr huc.symm)
            · exact Or.inr ⟨u, hu2, huc⟩
      · rw [iD, snd_sum_objSet]
        simp only [List.map_cons, List.sum_cons]
        ring

/-- The two filters of the source agree: filtering the expense list by
category is filtering the transaction list by the conjunction. -/
theorem filter_cat_expense (tx : List Transaction) (c : String) :
    (tx.filter (fun t => decide (t.type = TxType.expense))).filter
        (fun t => decide (t.category = c)) =
      tx.filter (fun t => decide (t.type = TxType.expense ∧ t.category = c)) := by
  rw [List.filter_filter]
  refine List.filter_congr ?_
  intro t _
  by_cases h1 : t.type = TxType.expense
  · by_cases h2 : t.category = c
    · simp [h1, h2]
    · simp [h1, h2]
  · simp [h1]

/-- `expAmts` over the expense sublist is `spentForCategory`. -/
theorem expAmts_filter_expense (s : BudgetState) (c : String) :
    expAmts (s.transactions.filter (fun t => decide (t.type = TxType.expense))) c =
      spentForCategory s c := by
  unfold expAmts spentForCategory
  rw [filter_cat_expense]

/-- C2 (amended): the value stored under every key of
`getExpensesByCategory` is the recomputed expense total of that category
(so income transactions never contribute), the values sum to
`calculateTotalExpenses`, a category with no expense transaction is absent
from the map, and — whenever every expense amount is positive — no key
holds the value 0. -/
theorem getExpensesByCategory_correct (s : BudgetState) :
    ((∀ t ∈ s.transactions, t.type = TxType.expense → 0 < t.amount) →
      ∀ p ∈ getExpensesByCategory s, p.2 ≠ 0) ∧
    (((getExpensesByCategory s).map Prod.snd).sum = calculateTotalExpenses s) ∧
    (∀ p ∈ getExpensesByCategory s, p.2 = spentForCategory s p.1) ∧
    (∀ c : String,
      (∀ t ∈ s.transactions, t.type = TxType.expense → t.category ≠ c) →
      ∀ p ∈ getExpensesByCategory s, p.1 ≠ c) := by
  obtain ⟨mA, mB, mC, mD⟩ :=
    accumulate_master
      (s.transactions.filter (fun t => decide (t.type = TxType.expense))) []
      List.nodup_nil
  have hval : ∀ p ∈ getExpensesByCategory s, p.2 = spentForCategory s p.1 := by
    intro p hp
    have h1 : objGetD (getExpensesByCategory s) p.1 = p.2 :=
      objGetD_of_mem _ (by rw [getExpensesByCategory_eq_accumulate]; exact mA) p hp
    rw [getExpensesByCategory_eq_accumulate] at h1
    rw [mB p.1, expAmts_filter_expense] at h1
    simpa [objGetD] using h1.symm
  have hkey : ∀ c, c ∈ (getExpensesByCategory s).map Prod.fst ↔
      ∃ t ∈ s.transactions.filter (fun t => decide (t.type = TxType.expense)),
        t.category = c := by
    intro c
    rw [getExpensesByCategory_eq_accumulate, mC c]
    simp
  refine ⟨?_, ?_, hval, ?_⟩
  · intro hpos p hp
    rw [hval p hp]
    have hmem : p.1 ∈ (getExpensesByCategory s).map Prod.fst :=
      List.mem_map_of_mem Prod.fst hp
    obtain ⟨t, ht, htc⟩ := (hkey p.1).mp hmem
    have htx := List.mem_of_mem_filter ht
    have hty : t.type = TxType.expense := by
      have := List.of_mem_filter ht
      simpa using this
    have htmem : t ∈ s.transactions.filter
        (fun u => decide (u.type = TxType.expense ∧ u.category = p.1)) :=
      List.mem_filter.mpr ⟨htx, by simp [hty, htc]⟩
    have hpos2 : 0 < spentForCategory s p.1 := by
      refine List.sum_pos _ ?_ ?_
      · intro x hx
        simp only [List.mem_map, List.mem_filter, decide_eq_true_eq] at hx
        obtain ⟨u, ⟨hu, huty, _⟩, rfl⟩ := hx
        exact hpos u hu huty
      · exact fun hnil => (List.ne_nil_of_mem
          (List.mem_map_of_mem Transaction.amount htmem)) (by simpa using hnil)
    exact ne_of_gt hpos2
  · rw [getExpensesByCategory_eq_accumulate, mD]
    rw [calculateTotalExpenses, foldl_add_amount, zero_add]
    simp
  · intro c hnone p hp hpc
    have hmem : c ∈ (getExpensesByCategory s).map Prod.fst :=
      hpc ▸ List.mem_map_of_mem Prod.fst hp
    obtain ⟨t, ht, htc⟩ := (hkey c).mp hmem
    have hty : t.type = TxType.expense := by
      have := List.of_mem_filter ht
      simpa using this
    exact hnone t (List.mem_of_mem_filter ht) hty htc

/-- A snapshot with a single expense of amount 0, used to refute the
zero-value clause of C2. -/
def zeroAmountState : BudgetState :=
  { transactions :=
      [{ id := "t1", amount := 0, type := TxType.expense, category := "A",
         date := "2024-01-01", description := "x" }],
    budgets := [], categories := [] }

/-- C2 counterexample: an expense transaction of amount 0 makes
`getExpensesByCategory` return a map that does contain a key (its
category) with value 0, so the clause "contains no key whose value is 0"
fails for that snapshot. -/
theorem getExpensesByCategory_zero_cx :
    ("A", (0 : ℚ)) ∈ getExpensesByCategory zeroAmountState := by
  simp [getExpensesByCategory, zeroAmountState, List.filter, accumulate,
    objSet, objGetD]

/-- A snapshot with positive expense amounts and one income transaction,
used as the C2 witness. -/
def positiveState : BudgetState :=
  { transactions :=
      [{ id := "1", amount := 500, type := TxType.expense,
         category := "Food & Dining", date := "2024-01-10",
         description := "Lunch" },
       { id := "2", amount := 600, type := TxType.expense,
         category := "Food & Dining", date := "2024-01-11",
         description := "Dinner" },
       { id := "3", amount := 100, type := TxType.income,
         category := "Salary", date := "2024-01-12",
         description := "Pay" }],
    budgets := [], categories := defaultCategories }

/-- C2 witness: on a snapshot whose expense amounts are all positive, every
entry of the map holds a nonzero value. -/
theorem getExpensesByCategory_correct_witness :
    (∀ t ∈ positiveState.transactions, t.type = TxType.expense → 0 < t.amount) ∧
    (∀ p ∈ getExpensesByCategory positiveState, p.2 ≠ 0) :=
  ⟨by decide, (getExpensesByCategory_correct positiveState).1 (by decide)⟩

end BudgetApp
